import Mathlib

/-!
Verification of the line-selection coordination logic of `mplsel/linesel.py`.

The Python module manipulates three pieces of state:
  * the chart surface's ordered series list (`ax.lines`),
  * an ordered clipboard of selected series references (`line_clipboard`),
  * a bounded undo buffer of series-list snapshots (`SnapshotBuffer`, a
    `deque(maxlen=...)`).

The embedding below translates each method into a pure function over an
explicit state record.  Python exceptions are modelled with `Except Err`;
an `.error` result corresponds to the Python call raising before the
object state was changed (which is the case at every raise site of the
source: all validation happens before mutation, and the mid-loop
`IndexError` of `reorder_lines` occurs before `self.ax.lines` is
reassigned).  Calls to the external renderer's redraw facility are
counted in `redrawCount`; the renderer itself (canvas, legend, picking)
is outside the modelled system.
-/

set_option autoImplicit false

/-- Error taxonomy of the spec, mapped onto the Python exception sites:
`invalidArgument` for the `ValueError`/`AssertionError` validation
failures, `indexError` for out-of-range list accesses and `pop` from an
empty list, `emptyBuffer` for popping the empty snapshot deque, and
`unsupportedAttribute` for an attribute name outside the allow-list. -/
inductive Err where
  | invalidArgument
  | indexError
  | emptyBuffer
  | unsupportedAttribute
deriving DecidableEq

/-- A `matplotlib.lines.Line2D` object.  The `id` field models Python
object identity (two distinct live objects never share an `id`);
`attrs` models the object's mutable style attributes as a shadowing
association list (the most recent write is found first). -/
structure Line2D where
  id : Nat
  xdata : List Int
  ydata : List Int
  attrs : List (String × Int)
deriving DecidableEq

/-- Read a style attribute of a line (Python `getattr`). -/
def getLineAttr (l : Line2D) (a : String) : Int :=
  match l.attrs.lookup a with
  | some v => v
  | none => 0

/-- Write a style attribute of a line (Python `setattr` / `set_*`). -/
def setLineAttr (l : Line2D) (a : String) (v : Int) : Line2D :=
  { l with attrs := (a, v) :: l.attrs }

/-- The `SnapshotBuffer`: a `deque(maxlen=max_len)` of list snapshots. -/
structure SnapshotBuffer (α : Type) where
  max_len : Nat
  item_snapshots : List (List α)
deriving DecidableEq

/-- The `SnapshotBuffer.snapshot`: append a (shallow) copy of `items`; a
full deque first evicts its oldest entry, and a zero-capacity deque
stores nothing. -/
def SnapshotBuffer.snapshot {α : Type} (b : SnapshotBuffer α) (items : List α) :
    SnapshotBuffer α :=
  if b.max_len = 0 then b
  else if b.max_len ≤ b.item_snapshots.length then
    { b with item_snapshots := b.item_snapshots.tail ++ [items] }
  else
    { b with item_snapshots := b.item_snapshots ++ [items] }

/-- The `SnapshotBuffer.rewind`: pop and return the most recent snapshot;
`deque.pop()` on an empty deque raises (the spec's `EmptyBufferError`). -/
def SnapshotBuffer.rewind {α : Type} (b : SnapshotBuffer α) :
    Except Err (List α × SnapshotBuffer α) :=
  match b.item_snapshots.getLast? with
  | none => .error .emptyBuffer
  | some xs => .ok (xs, { b with item_snapshots := b.item_snapshots.dropLast })

/-- The chart surface: its ordered series list, plus a count of the
redraw requests issued to the external renderer. -/
structure AxesState where
  lines : List Line2D
  redrawCount : Nat
deriving DecidableEq

/-- The `AxesLineSelector.redraw`: request one redraw of the given surface
(legend regeneration and canvas repaint are the external renderer's
job; only the request is observable here). -/
def redrawAx (ax : AxesState) : AxesState :=
  { ax with redrawCount := ax.redrawCount + 1 }

/-- The coordinator: one surface, one deletion snapshot buffer, one
selection clipboard.  (The interactive callback id is bookkeeping for
the external event system and carries no list state.) -/
structure AxesLineSelector where
  ax : AxesState
  delete_buffer : SnapshotBuffer Line2D
  line_clipboard : List Line2D
deriving DecidableEq

/-- The allow-list `AxesLineSelector.LINE_PROPERTIES`. -/
def LINE_PROPERTIES : List String :=
  ["linewidth", "linestyle", "alpha", "color", "antialiased",
   "dashcapstyle", "dashjoinstyle", "dashOffset", "dashSeq",
   "drawstyle", "label", "marker", "markeredgecolor",
   "markeredgewidth", "markerfacecolor", "markerfacecoloralt",
   "markersize", "markevery", "solidcapstyle", "solidjoinstyle",
   "visible"]

/-- The `AxesLineSelector._delete_line`: remove the line from the surface
list if present (first occurrence, like `list.remove`), else log and
skip; either way request a redraw. -/
def deleteLine (s : AxesLineSelector) (line : Line2D) : AxesLineSelector :=
  if line ∈ s.ax.lines then
    { s with ax := redrawAx { s.ax with lines := s.ax.lines.erase line } }
  else
    { s with ax := redrawAx s.ax }

/-- Loop body of `delete_all_lines`: repeatedly delete the last line
while any remain.  Fuel equals the series count, which bounds the loop
since each iteration removes exactly one element. -/
def deleteAllGo : Nat → AxesLineSelector → AxesLineSelector
  | 0, s => s
  | fuel + 1, s =>
    match s.ax.lines.getLast? with
    | none => s
    | some ln => deleteAllGo fuel (deleteLine s ln)

/-- The `AxesLineSelector.delete_all_lines`. -/
def delete_all_lines (s : AxesLineSelector) : AxesLineSelector :=
  deleteAllGo s.ax.lines.length
    { s with delete_buffer := s.delete_buffer.snapshot s.ax.lines }

/-- Loop body of `delete_selection`: pop the first clipboard entry and
delete it, while the clipboard is non-empty. -/
def deleteSelectionGo : Nat → AxesLineSelector → AxesLineSelector
  | 0, s => s
  | fuel + 1, s =>
    match s.line_clipboard with
    | [] => s
    | ln :: rest => deleteSelectionGo fuel (deleteLine { s with line_clipboard := rest } ln)

/-- The `AxesLineSelector.delete_selection`. -/
def delete_selection (s : AxesLineSelector) : AxesLineSelector :=
  deleteSelectionGo s.line_clipboard.length
    { s with delete_buffer := s.delete_buffer.snapshot s.ax.lines }

/-- The `for i, l in enumerate(self.ax.lines)` pass of
`delete_lines_by_inds`: keep exactly the elements whose position is not
among `inds`; `k` is the position of the first element of the remaining
list. -/
def keepNotIn (inds : List Nat) : Nat → List Line2D → List Line2D
  | _, [] => []
  | k, l :: rest =>
    if k ∈ inds then keepNotIn inds (k + 1) rest
    else l :: keepNotIn inds (k + 1) rest

/-- The `AxesLineSelector.delete_lines_by_inds`. -/
def delete_lines_by_inds (s : AxesLineSelector) (inds : List Nat) :
    Except Err AxesLineSelector :=
  if inds.length < 1 then .error .invalidArgument
  else
    .ok { s with
          delete_buffer := s.delete_buffer.snapshot s.ax.lines,
          ax := redrawAx { s.ax with lines := keepNotIn inds 0 s.ax.lines } }

/-- The `AxesLineSelector.undo_last_delete`: report-and-return when the
buffer is empty, else wholesale-replace the surface list with the most
recent snapshot and redraw. -/
def undo_last_delete (s : AxesLineSelector) : AxesLineSelector :=
  if s.delete_buffer.item_snapshots.length = 0 then s
  else
    match s.delete_buffer.rewind with
    | .error _ => s
    | .ok (items, buf) =>
      { s with delete_buffer := buf, ax := redrawAx { s.ax with lines := items } }

/-- The assignment loop of `reorder_lines`: for each `new_ind` in
`order` (with running source position `old_ind`), read
`ax.lines[old_ind]` (raising `IndexError` when out of range, before any
slot assignment of that step) and store it in slot `new_ind`. -/
def reorderGo (lines : List Line2D) :
    List Nat → Nat → List (Option Line2D) → Except Err (List (Option Line2D))
  | [], _, acc => .ok acc
  | newInd :: rest, oldInd, acc =>
    match lines.get? oldInd with
    | none => .error .indexError
    | some l => reorderGo lines rest (oldInd + 1) (acc.set newInd (some l))

/-- The `AxesLineSelector.reorder_lines`: assert
`set(order) == set(range(len(ax.lines)))`, then run the assignment loop
over a `[None] * len(ax.lines)` scratch list and install the result. -/
def reorder_lines (s : AxesLineSelector) (order : List Nat) :
    Except Err AxesLineSelector :=
  if order.toFinset = (List.range s.ax.lines.length).toFinset then
    match reorderGo s.ax.lines order 0 (List.replicate s.ax.lines.length none) with
    | .error e => .error e
    | .ok slots =>
      .ok { s with ax := redrawAx { s.ax with lines := slots.reduceOption } }
  else .error .invalidArgument

/-- The `order` is a bijection of `0..n-1`: a permutation argument in the
sense of the spec of `reorder_lines`. -/
def IsPermutationOf (order : List Nat) (n : Nat) : Prop :=
  order.length = n ∧ order.Nodup ∧ ∀ j ∈ order, j < n

/-- The `AxesLineSelector._add_line_to_clipboard`: append unless already
present (identity-based membership). -/
def addLineToClipboard (s : AxesLineSelector) (line : Line2D) : AxesLineSelector :=
  if line ∈ s.line_clipboard then s
  else { s with line_clipboard := s.line_clipboard ++ [line] }

/-- The `AxesLineSelector._select_callback`: an interactive pick adds the
picked artist to the clipboard. -/
def select_callback (s : AxesLineSelector) (artist : Line2D) : AxesLineSelector :=
  addLineToClipboard s artist

/-- Loop of `select_all_lines` over the surface's series list. -/
def selectAllGo : List Line2D → AxesLineSelector → AxesLineSelector
  | [], s => s
  | ln :: rest, s => selectAllGo rest (addLineToClipboard s ln)

/-- The `AxesLineSelector.select_all_lines`. -/
def select_all_lines (s : AxesLineSelector) : AxesLineSelector :=
  selectAllGo s.ax.lines s

/-- Loop of `select_lines`: add every line the predicate accepts, in
list order (`i` is the running index). -/
def selectLinesGo (sel_fn : Line2D → Nat → Bool) :
    Nat → List Line2D → AxesLineSelector → AxesLineSelector
  | _, [], s => s
  | i, ln :: rest, s =>
    selectLinesGo sel_fn (i + 1) rest (if sel_fn ln i then addLineToClipboard s ln else s)

/-- The `AxesLineSelector.select_lines`. -/
def select_lines (s : AxesLineSelector) (sel_fn : Line2D → Nat → Bool) :
    AxesLineSelector :=
  selectLinesGo sel_fn 0 s.ax.lines s

/-- Loop of `select_lines_by_inds`: `self.ax.lines[ind]` raises
`IndexError` when out of range, else the line is added. -/
def selectByIndsGo : List Nat → AxesLineSelector → Except Err AxesLineSelector
  | [], s => .ok s
  | ind :: rest, s =>
    match s.ax.lines.get? ind with
    | none => .error .indexError
    | some ln => selectByIndsGo rest (addLineToClipboard s ln)

/-- The `AxesLineSelector.select_lines_by_inds`. -/
def select_lines_by_inds (s : AxesLineSelector) (inds : List Nat) :
    Except Err AxesLineSelector :=
  if inds.length < 1 then .error .invalidArgument
  else selectByIndsGo inds s

/-- The `AxesLineSelector.undo_last_selection`: the source prints the
empty-clipboard notice but then executes `self.line_clipboard.pop()`
unconditionally, so the empty case raises (`pop` from an empty list). -/
def undo_last_selection (s : AxesLineSelector) : Except Err AxesLineSelector :=
  match s.line_clipboard.getLast? with
  | none => .error .indexError
  | some _ => .ok { s with line_clipboard := s.line_clipboard.dropLast }

/-- The `AxesLineSelector.clear_clipboard`. -/
def clear_clipboard (s : AxesLineSelector) : AxesLineSelector :=
  { s with line_clipboard := [] }

/-- The `value` argument of `setattr_selection`: a tuple, a callable,
or any other single value. -/
inductive AttrValue where
  | single (v : Int)
  | tup (vs : List Int)
  | fn (f : Line2D → Nat → Int)

/-- Mutation of one `Line2D` object: every reference to it (surface
list and clipboard) now sees the updated object. -/
def replaceLine (old new : Line2D) (l : Line2D) : Line2D :=
  if l = old then new else l

/-- Propagate an in-place mutation of the object `old` into `new`
through both reference-holding lists of the coordinator. -/
def setLineEverywhere (s : AxesLineSelector) (old new : Line2D) : AxesLineSelector :=
  { s with
    ax := { s.ax with lines := s.ax.lines.map (replaceLine old new) },
    line_clipboard := s.line_clipboard.map (replaceLine old new) }

/-- The `for ln, val in zip(...)` loop of `setattr_selection`: each
step mutates one line object in place, which is also visible through
every alias of that object in the remaining iteration pairs.  Fuel
equals the number of pairs, which the steps preserve. -/
def setattrGo (attr : String) :
    Nat → List (Line2D × Int) → AxesLineSelector → AxesLineSelector
  | 0, _, s => s
  | _ + 1, [], s => s
  | fuel + 1, (ln, v) :: rest, s =>
    setattrGo attr fuel
      (rest.map (fun p => (replaceLine ln (setLineAttr ln attr v) p.1, p.2)))
      (setLineEverywhere s ln (setLineAttr ln attr v))

/-- Run the assignment loop over the given zip pairs, then request the
single end-of-call redraw of `setattr_selection`. -/
def setattrRun (attr : String) (pairs : List (Line2D × Int))
    (s : AxesLineSelector) : AxesLineSelector :=
  let s1 := setattrGo attr pairs.length pairs s
  { s1 with ax := redrawAx s1.ax }

/-- The `AxesLineSelector.setattr_selection`: the allow-list assertion
runs first (`UnsupportedAttribute`), then a tuple value must match the
clipboard size exactly (`InvalidArgument`), a callable is evaluated
once per clipboard entry to build the value tuple, and any other value
is broadcast over the whole clipboard. -/
def setattr_selection (s : AxesLineSelector) (attr : String) :
    AttrValue → Except Err AxesLineSelector
  | .tup vs =>
    if attr ∈ LINE_PROPERTIES then
      if vs.length = s.line_clipboard.length then
        .ok (setattrRun attr (s.line_clipboard.zip vs) s)
      else .error .invalidArgument
    else .error .unsupportedAttribute
  | .fn f =>
    if attr ∈ LINE_PROPERTIES then
      .ok (setattrRun attr
            (s.line_clipboard.zip (s.line_clipboard.enum.map (fun p => f p.2 p.1))) s)
    else .error .unsupportedAttribute
  | .single v =>
    if attr ∈ LINE_PROPERTIES then
      .ok (setattrRun attr
            (s.line_clipboard.zip (List.replicate s.line_clipboard.length v)) s)
    else .error .unsupportedAttribute

/-- The `AxesLineSelector.getattr_selection`. -/
def getattr_selection (s : AxesLineSelector) (attr : String) :
    Except Err (List Int) :=
  if attr ∈ LINE_PROPERTIES then
    .ok (s.line_clipboard.map (fun ln => getLineAttr ln attr))
  else .error .unsupportedAttribute

/-- One pasted line: `ax.plot(*ln.get_data())` creates a fresh object
with the source's sample data, whose allow-listed attributes are then
copied over one by one from the source line. -/
def pastedLine (idv : Nat) (ln : Line2D) : Line2D :=
  LINE_PROPERTIES.foldl (fun l a => setLineAttr l a (getLineAttr ln a))
    { id := idv, xdata := ln.xdata, ydata := ln.ydata, attrs := [] }

/-- The clipboard loop of `paste_selection`: plot a copy of each
clipboard line onto the target surface (appending, in clipboard order)
and collect the new objects.  `nextId` supplies the fresh identities of
the created objects. -/
def pasteGo (nextId : Nat) : List Line2D → AxesState → (List Line2D × AxesState)
  | [], ax2 => ([], ax2)
  | ln :: rest, ax2 =>
    let newL := pastedLine nextId ln
    let res := pasteGo (nextId + 1) rest { ax2 with lines := ax2.lines ++ [newL] }
    (newL :: res.1, res.2)

/-- The `AxesLineSelector.paste_selection`: paste into `ax2`, redraw it
once, and return a brand-new coordinator bound to `ax2` whose clipboard
holds exactly the pasted lines. -/
def paste_selection (s : AxesLineSelector) (ax2 : AxesState) (nextId : Nat) :
    AxesLineSelector :=
  let res := pasteGo nextId s.line_clipboard ax2
  { ax := redrawAx res.2,
    delete_buffer := { max_len := 25, item_snapshots := [] },
    line_clipboard := res.1 }

/-- A concrete line object used by the concrete-input theorems. -/
def ln0 : Line2D := ⟨0, [1], [2], []⟩

/-- A second concrete line object. -/
def ln1 : Line2D := ⟨1, [3], [4], []⟩

/-- A third concrete line object. -/
def ln2 : Line2D := ⟨2, [5], [6], []⟩

/-! ### Basic facts about the primitive operations -/

lemma deleteLine_clipboard (s : AxesLineSelector) (ln : Line2D) :
    (deleteLine s ln).line_clipboard = s.line_clipboard := by
  unfold deleteLine; split <;> rfl

lemma deleteLine_redrawCount (s : AxesLineSelector) (ln : Line2D) :
    (deleteLine s ln).ax.redrawCount = s.ax.redrawCount + 1 := by
  unfold deleteLine; split <;> rfl

lemma deleteSelectionGo_clipboard :
    ∀ (fuel : Nat) (s : AxesLineSelector), s.line_clipboard.length = fuel →
      (deleteSelectionGo fuel s).line_clipboard = []
  | 0, s, h => by
    have h0 : s.line_clipboard = [] := List.length_eq_zero.mp h
    simpa [deleteSelectionGo] using h0
  | fuel + 1, s, h => by
    cases hc : s.line_clipboard with
    | nil => simp [deleteSelectionGo, hc]
    | cons ln rest =>
      have hr : (deleteLine { s with line_clipboard := rest } ln).line_clipboard.length = fuel := by
        rw [deleteLine_clipboard]
        rw [hc] at h
        simpa using h
      have hrec := deleteSelectionGo_clipboard fuel
        (deleteLine { s with line_clipboard := rest } ln) hr
      simpa [deleteSelectionGo, hc] using hrec

lemma deleteSelectionGo_redraw :
    ∀ (fuel : Nat) (s : AxesLineSelector), s.line_clipboard.length = fuel →
      (deleteSelectionGo fuel s).ax.redrawCount = s.ax.redrawCount + fuel
  | 0, s, _ => by simp [deleteSelectionGo]
  | fuel + 1, s, h => by
    cases hc : s.line_clipboard with
    | nil => rw [hc] at h; simp at h
    | cons ln rest =>
      have hr : (deleteLine { s with line_clipboard := rest } ln).line_clipboard.length = fuel := by
        rw [deleteLine_clipboard]
        rw [hc] at h
        simpa using h
      have hrec := deleteSelectionGo_redraw fuel
        (deleteLine { s with line_clipboard := rest } ln) hr
      rw [deleteLine_redrawCount] at hrec
      have hax : ({ s with line_clipboard := rest } : AxesLineSelector).ax = s.ax := rfl
      rw [hax] at hrec
      simp only [deleteSelectionGo, hc]
      rw [hrec]
      omega

lemma deleteAllGo_redraw :
    ∀ (fuel : Nat) (s : AxesLineSelector), s.ax.lines.length = fuel →
      (deleteAllGo fuel s).ax.redrawCount = s.ax.redrawCount + fuel
  | 0, s, _ => by simp [deleteAllGo]
  | fuel + 1, s, h => by
    cases hl : s.ax.lines.getLast? with
    | none =>
      rw [List.getLast?_eq_none_iff] at hl
      rw [hl] at h
      simp at h
    | some ln =>
      have hmem : ln ∈ s.ax.lines := List.mem_of_getLast?_eq_some hl
      have hlen : (deleteLine s ln).ax.lines.length = fuel := by
        unfold deleteLine
        rw [if_pos hmem]
        simp only [redrawAx]
        rw [List.length_erase_of_mem hmem]
        omega
      have hrec := deleteAllGo_redraw fuel (deleteLine s ln) hlen
      rw [deleteLine_redrawCount] at hrec
      simp only [deleteAllGo, hl]
      rw [hrec]
      omega

lemma snapshot_getLast {α : Type} (b : SnapshotBuffer α) (xs : List α)
    (h : 0 < b.max_len) :
    (b.snapshot xs).item_snapshots.getLast? = some xs := by
  unfold SnapshotBuffer.snapshot
  rw [if_neg (by omega)]
  split <;> simp

/-! ### Claim theorems -/

/-- Claim C1 (code_bug evidence): on a coordinator whose clipboard is
empty, `undo_last_selection` does not return normally: after printing
the diagnostic notice the source still executes
`self.line_clipboard.pop()`, which raises `IndexError` on the empty
list.  Evaluated here at the concrete empty-clipboard coordinator. -/
theorem undo_last_selection_empty_raises :
    undo_last_selection { ax := { lines := [], redrawCount := 0 },
                          delete_buffer := { max_len := 25, item_snapshots := [] },
                          line_clipboard := [] } = .error .indexError := rfl

/-- Claim C10: after `delete_selection` returns, the clipboard is
empty, so a subsequent `getattr_selection` with any allow-listed
attribute operates on an empty selection. -/
theorem delete_selection_empties_clipboard (s : AxesLineSelector) (attr : String)
    (hattr : attr ∈ LINE_PROPERTIES) :
    (delete_selection s).line_clipboard = [] ∧
    getattr_selection (delete_selection s) attr = .ok [] := by
  have hempty : (delete_selection s).line_clipboard = [] := by
    unfold delete_selection
    exact deleteSelectionGo_clipboard _ _ rfl
  refine ⟨hempty, ?_⟩
  unfold getattr_selection
  rw [if_pos hattr, hempty]
  rfl

/-- Witness for C10 at a concrete coordinator and attribute. -/
theorem delete_selection_empties_clipboard_witness :
    (delete_selection ⟨⟨[ln0], 0⟩, ⟨25, []⟩, [ln0]⟩).line_clipboard = [] ∧
    getattr_selection (delete_selection ⟨⟨[ln0], 0⟩, ⟨25, []⟩, [ln0]⟩) "color" = .ok [] :=
  delete_selection_empties_clipboard ⟨⟨[ln0], 0⟩, ⟨25, []⟩, [ln0]⟩ "color" (by decide)

/-- Claim C3 (counterexample): a single `delete_selection` call on a
clipboard holding two series issues two redraw requests, not exactly
one — `_delete_line` redraws on every removal. -/
theorem delete_selection_redraw_counterexample :
    (delete_selection ⟨⟨[ln0, ln1], 0⟩, ⟨25, []⟩, [ln0, ln1]⟩).ax.redrawCount = 2 ∧
    ¬ (delete_selection ⟨⟨[ln0, ln1], 0⟩, ⟨25, []⟩, [ln0, ln1]⟩).ax.redrawCount = 1 := by
  constructor <;> decide

/-- Claim C3 (amended): `delete_selection` issues one redraw request
per clipboard entry processed (so `k` requests for a clipboard of size
`k`, and zero when the clipboard is empty), and `delete_all_lines`
issues one request per series on the surface. -/
theorem delete_redraw_count_spec (s : AxesLineSelector) :
    (delete_selection s).ax.redrawCount = s.ax.redrawCount + s.line_clipboard.length ∧
    (delete_all_lines s).ax.redrawCount = s.ax.redrawCount + s.ax.lines.length := by
  constructor
  · unfold delete_selection
    exact deleteSelectionGo_redraw _ _ rfl
  · unfold delete_all_lines
    exact deleteAllGo_redraw _ _ rfl

/-- Claim C5: the snapshot buffer stores a copy of the given list as
its most recent entry, evicts the oldest entry when already at
capacity, rewinds in LIFO order, and rewinding an empty buffer fails
with the empty-buffer error. -/
theorem snapshotBuffer_spec {α : Type} (b₁ b₂ : SnapshotBuffer α) (xs ys : List α)
    (hpos : 0 < b₁.max_len) :
    ((b₁.snapshot xs).item_snapshots.getLast? = some xs) ∧
    (b₁.item_snapshots.length = b₁.max_len →
      (b₁.snapshot xs).item_snapshots = b₁.item_snapshots.tail ++ [xs]) ∧
    (b₁.item_snapshots.getLast? = some ys →
      b₁.rewind = .ok (ys, { b₁ with item_snapshots := b₁.item_snapshots.dropLast })) ∧
    (b₂.item_snapshots = [] → b₂.rewind = .error .emptyBuffer) := by
  refine ⟨snapshot_getLast b₁ xs hpos, ?_, ?_, ?_⟩
  · intro hfull
    unfold SnapshotBuffer.snapshot
    rw [if_neg (by omega), if_pos (by omega)]
  · intro hlast
    unfold SnapshotBuffer.rewind
    rw [hlast]
  · intro hnil
    unfold SnapshotBuffer.rewind
    rw [hnil]
    rfl

/-- Witness for C5: a capacity-2 buffer already holding two snapshots
evicts the oldest on the third `snapshot`, `rewind` returns the most
recent entry, and `rewind` on an empty buffer reports the
empty-buffer failure. -/
theorem snapshotBuffer_spec_witness :
    (((⟨2, [[10], [20]]⟩ : SnapshotBuffer Nat).snapshot [30]).item_snapshots.getLast? = some [30]) ∧
    ((⟨2, [[10], [20]]⟩ : SnapshotBuffer Nat).item_snapshots.length = 2 →
      ((⟨2, [[10], [20]]⟩ : SnapshotBuffer Nat).snapshot [30]).item_snapshots =
        (⟨2, [[10], [20]]⟩ : SnapshotBuffer Nat).item_snapshots.tail ++ [[30]]) ∧
    ((⟨2, [[10], [20]]⟩ : SnapshotBuffer Nat).item_snapshots.getLast? = some [20] →
      (⟨2, [[10], [20]]⟩ : SnapshotBuffer Nat).rewind =
        .ok ([20], { (⟨2, [[10], [20]]⟩ : SnapshotBuffer Nat) with
                     item_snapshots := (⟨2, [[10], [20]]⟩ : SnapshotBuffer Nat).item_snapshots.dropLast })) ∧
    ((⟨2, ([] : List (List Nat))⟩ : SnapshotBuffer Nat).item_snapshots = [] →
      (⟨2, ([] : List (List Nat))⟩ : SnapshotBuffer Nat).rewind = .error .emptyBuffer) :=
  snapshotBuffer_spec ⟨2, [[10], [20]]⟩ ⟨2, []⟩ [30] [20] (by decide)

/-- Claim C7: a successful `delete_lines_by_inds` call followed by
`undo_last_delete`, with no intervening mutation, restores the
surface's series list exactly (same members, same order). -/
theorem delete_undo_roundtrip (s s₁ : AxesLineSelector) (inds : List Nat)
    (hcap : 0 < s.delete_buffer.max_len)
    (hok : delete_lines_by_inds s inds = .ok s₁) :
    (undo_last_delete s₁).ax.lines = s.ax.lines := by
  unfold delete_lines_by_inds at hok
  split at hok
  · exact absurd hok (by simp)
  · have hs₁ : { s with
        delete_buffer := s.delete_buffer.snapshot s.ax.lines,
        ax := redrawAx { s.ax with lines := keepNotIn inds 0 s.ax.lines } } = s₁ := by
      simpa using hok
    subst hs₁
    have hlast : (s.delete_buffer.snapshot s.ax.lines).item_snapshots.getLast? =
        some s.ax.lines := snapshot_getLast _ _ hcap
    have hne : (s.delete_buffer.snapshot s.ax.lines).item_snapshots ≠ [] := by
      intro he
      rw [he] at hlast
      simp at hlast
    unfold undo_last_delete SnapshotBuffer.rewind
    rw [if_neg (by simpa [List.length_eq_zero] using hne)]
    simp only [hlast]
    rfl

/-- Witness for C7 at a concrete one-line surface and index set. -/
theorem delete_undo_roundtrip_witness :
    (undo_last_delete ⟨⟨[], 1⟩, ⟨25, [[ln0]]⟩, []⟩).ax.lines = [ln0] :=
  delete_undo_roundtrip ⟨⟨[ln0], 0⟩, ⟨25, []⟩, []⟩ ⟨⟨[], 1⟩, ⟨25, [[ln0]]⟩, []⟩
    [0] (by decide) rfl

/-! ### The positional one-pass filter of `delete_lines_by_inds` -/

lemma keepNotIn_eq (inds : List Nat) (l : List Line2D) :
    ∀ (k : Nat),
      keepNotIn inds k l =
        (List.range l.length).filterMap
          (fun j => if (k + j) ∈ inds then none else l.get? j) := by
  induction l with
  | nil => intro k; simp [keepNotIn]
  | cons a rest ih =>
    intro k
    have harg : ((fun j => if (k + j) ∈ inds then none else (a :: rest).get? j) ∘ Nat.succ)
        = (fun j => if ((k + 1) + j) ∈ inds then none else rest.get? j) := by
      funext j
      simp only [Function.comp_apply, List.get?_cons_succ]
      rw [show k + Nat.succ j = k + 1 + j by omega]
    simp only [keepNotIn, List.length_cons, List.range_succ_eq_map,
      List.filterMap_cons, List.filterMap_map, harg, ← ih]
    by_cases hk : k ∈ inds <;> simp [hk]

/-- Claim C6: `delete_lines_by_inds` with zero indices fails with the
invalid-argument error before any mutation; with a non-empty index
collection it first snapshots the full series list, removes exactly the
series whose positions are among the indices (out-of-range indices
match nothing and are ignored), keeps the remaining series in their
original relative order, and leaves the clipboard alone. -/
theorem delete_lines_by_inds_spec (s : AxesLineSelector) (inds : List Nat)
    (hne : inds ≠ []) :
    delete_lines_by_inds s [] = .error .invalidArgument ∧
    ∃ s₁, delete_lines_by_inds s inds = .ok s₁ ∧
      s₁.ax.lines = (List.range s.ax.lines.length).filterMap
        (fun j => if j ∈ inds then none else s.ax.lines.get? j) ∧
      s₁.delete_buffer = s.delete_buffer.snapshot s.ax.lines ∧
      s₁.line_clipboard = s.line_clipboard := by
  constructor
  · rfl
  · have hlen : ¬ inds.length < 1 := by
      have hpos := List.length_pos.mpr hne
      omega
    unfold delete_lines_by_inds
    rw [if_neg hlen]
    refine ⟨_, rfl, ?_, rfl, rfl⟩
    show keepNotIn inds 0 s.ax.lines = _
    rw [keepNotIn_eq]
    simp only [Nat.zero_add]

/-- Witness for C6 at a concrete two-line surface, deleting position 0
and the out-of-range position 5. -/
theorem delete_lines_by_inds_spec_witness :
    delete_lines_by_inds (⟨⟨[ln0, ln1], 0⟩, ⟨25, []⟩, []⟩ : AxesLineSelector) [] =
      .error .invalidArgument ∧
    ∃ s₁, delete_lines_by_inds (⟨⟨[ln0, ln1], 0⟩, ⟨25, []⟩, []⟩ : AxesLineSelector) [0, 5] = .ok s₁ ∧
      s₁.ax.lines = (List.range ([ln0, ln1] : List Line2D).length).filterMap
        (fun j => if j ∈ ([0, 5] : List Nat) then none else ([ln0, ln1] : List Line2D).get? j) ∧
      s₁.delete_buffer = SnapshotBuffer.snapshot ⟨25, []⟩ [ln0, ln1] ∧
      s₁.line_clipboard = [] :=
  delete_lines_by_inds_spec ⟨⟨[ln0, ln1], 0⟩, ⟨25, []⟩, []⟩ [0, 5] (by decide)

/-! ### Clipboard duplicate-freedom -/

lemma addLine_ax (s : AxesLineSelector) (ln : Line2D) :
    (addLineToClipboard s ln).ax = s.ax := by
  unfold addLineToClipboard; split <;> rfl

lemma addLine_mem (s : AxesLineSelector) (ln : Line2D) :
    ln ∈ (addLineToClipboard s ln).line_clipboard := by
  unfold addLineToClipboard
  split
  · assumption
  · simp

lemma addLine_of_mem (s : AxesLineSelector) (ln : Line2D)
    (h : ln ∈ s.line_clipboard) : addLineToClipboard s ln = s := by
  unfold addLineToClipboard
  rw [if_pos h]

lemma addLine_nodup (s : AxesLineSelector) (ln : Line2D)
    (h : s.line_clipboard.Nodup) :
    (addLineToClipboard s ln).line_clipboard.Nodup := by
  unfold addLineToClipboard
  split
  · exact h
  · rename_i hnot
    simp only [List.nodup_append, List.nodup_cons, List.not_mem_nil,
      not_false_iff, List.nodup_nil, and_true, true_and]
    refine ⟨h, ?_⟩
    intro a ha hb
    simp only [List.mem_singleton] at hb
    exact hnot (hb ▸ ha)

lemma selectAllGo_nodup :
    ∀ (ls : List Line2D) (s : AxesLineSelector), s.line_clipboard.Nodup →
      (selectAllGo ls s).line_clipboard.Nodup
  | [], _, h => h
  | ln :: rest, s, h =>
    selectAllGo_nodup rest (addLineToClipboard s ln) (addLine_nodup s ln h)

lemma selectLinesGo_nodup (sel_fn : Line2D → Nat → Bool) :
    ∀ (i : Nat) (ls : List Line2D) (s : AxesLineSelector), s.line_clipboard.Nodup →
      (selectLinesGo sel_fn i ls s).line_clipboard.Nodup
  | _, [], _, h => h
  | i, ln :: rest, s, h => by
    have hstep : (if sel_fn ln i then addLineToClipboard s ln else s).line_clipboard.Nodup := by
      split
      · exact addLine_nodup s ln h
      · exact h
    exact selectLinesGo_nodup sel_fn (i + 1) rest _ hstep

lemma selectByIndsGo_nodup :
    ∀ (inds : List Nat) (s s₁ : AxesLineSelector), s.line_clipboard.Nodup →
      selectByIndsGo inds s = .ok s₁ → s₁.line_clipboard.Nodup
  | [], s, s₁, h, hok => by
    cases hok
    exact h
  | ind :: rest, s, s₁, h, hok => by
    simp only [selectByIndsGo] at hok
    cases hg : s.ax.lines.get? ind with
    | none => rw [hg] at hok; exact absurd hok (by simp)
    | some ln =>
      rw [hg] at hok
      exact selectByIndsGo_nodup rest _ s₁ (addLine_nodup s ln h) hok

/-- Claim C8: every clipboard-adding operation — direct add, the
interactive pick callback, select-all, predicate selection, and
index-based selection — preserves duplicate-freedom of the clipboard,
and repeating `select_lines_by_inds` on the same index is a no-op after
the first call. -/
theorem clipboard_nodup_spec (s s₁ s₂ : AxesLineSelector) (ln : Line2D)
    (sel_fn : Line2D → Nat → Bool) (inds : List Nat) (i : Nat)
    (h : s.line_clipboard.Nodup) :
    (addLineToClipboard s ln).line_clipboard.Nodup ∧
    (select_callback s ln).line_clipboard.Nodup ∧
    (select_all_lines s).line_clipboard.Nodup ∧
    (select_lines s sel_fn).line_clipboard.Nodup ∧
    (select_lines_by_inds s inds = .ok s₁ → s₁.line_clipboard.Nodup) ∧
    (select_lines_by_inds s [i] = .ok s₂ → select_lines_by_inds s₂ [i] = .ok s₂) := by
  refine ⟨addLine_nodup s ln h, addLine_nodup s ln h,
    selectAllGo_nodup _ s h, selectLinesGo_nodup sel_fn 0 _ s h, ?_, ?_⟩
  · intro hok
    unfold select_lines_by_inds at hok
    split at hok
    · exact absurd hok (by simp)
    · exact selectByIndsGo_nodup inds s s₁ h hok
  · intro hok
    unfold select_lines_by_inds at hok
    rw [if_neg (by simp)] at hok
    simp only [selectByIndsGo] at hok
    cases hg : s.ax.lines.get? i with
    | none => rw [hg] at hok; exact absurd hok (by simp)
    | some ln' =>
      rw [hg] at hok
      simp only [selectByIndsGo] at hok
      have hs₂ : addLineToClipboard s ln' = s₂ := by
        cases hok
        rfl
      unfold select_lines_by_inds
      rw [if_neg (by simp)]
      simp only [selectByIndsGo]
      have hax : s₂.ax = s.ax := by rw [← hs₂]; exact addLine_ax s ln'
      rw [hax, hg]
      simp only [selectByIndsGo]
      have hmem : ln' ∈ s₂.line_clipboard := by
        rw [← hs₂]
        exact addLine_mem s ln'
      rw [addLine_of_mem s₂ ln' hmem]

/-- Witness for C8 at a concrete two-line surface with an initially
empty clipboard. -/
theorem clipboard_nodup_spec_witness :
    (addLineToClipboard ⟨⟨[ln0, ln1], 0⟩, ⟨25, []⟩, []⟩ ln2).line_clipboard.Nodup ∧
    (select_callback ⟨⟨[ln0, ln1], 0⟩, ⟨25, []⟩, []⟩ ln2).line_clipboard.Nodup ∧
    (select_all_lines ⟨⟨[ln0, ln1], 0⟩, ⟨25, []⟩, []⟩).line_clipboard.Nodup ∧
    (select_lines ⟨⟨[ln0, ln1], 0⟩, ⟨25, []⟩, []⟩ (fun _ _ => true)).line_clipboard.Nodup ∧
    (select_lines_by_inds ⟨⟨[ln0, ln1], 0⟩, ⟨25, []⟩, []⟩ [0, 1] =
        .ok ⟨⟨[ln0, ln1], 0⟩, ⟨25, []⟩, [ln0, ln1]⟩ →
      (⟨⟨[ln0, ln1], 0⟩, ⟨25, []⟩, [ln0, ln1]⟩ : AxesLineSelector).line_clipboard.Nodup) ∧
    (select_lines_by_inds ⟨⟨[ln0, ln1], 0⟩, ⟨25, []⟩, []⟩ [0] =
        .ok ⟨⟨[ln0, ln1], 0⟩, ⟨25, []⟩, [ln0]⟩ →
      select_lines_by_inds ⟨⟨[ln0, ln1], 0⟩, ⟨25, []⟩, [ln0]⟩ [0] =
        .ok ⟨⟨[ln0, ln1], 0⟩, ⟨25, []⟩, [ln0]⟩) :=
  clipboard_nodup_spec ⟨⟨[ln0, ln1], 0⟩, ⟨25, []⟩, []⟩
    ⟨⟨[ln0, ln1], 0⟩, ⟨25, []⟩, [ln0, ln1]⟩
    ⟨⟨[ln0, ln1], 0⟩, ⟨25, []⟩, [ln0]⟩
    ln2 (fun _ _ => true) [0, 1] 0 (by decide)

/-! ### The reordering pass -/

lemma reorderGo_ok_spec (lines : List Line2D) :
    ∀ (order : List Nat) (oldInd : Nat) (acc : List (Option Line2D)),
      oldInd + order.length ≤ lines.length →
      order.Nodup →
      (∀ j ∈ order, j < acc.length) →
      ∃ res, reorderGo lines order oldInd acc = .ok res ∧
        res.length = acc.length ∧
        (∀ j, j ∉ order → res.get? j = acc.get? j) ∧
        (∀ i (hi : i < order.length),
          res.get? (order.get ⟨i, hi⟩) = some (lines.get? (oldInd + i)))
  | [], _, acc, _, _, _ =>
    ⟨acc, rfl, rfl, fun _ _ => rfl, fun i hi => absurd hi (by simp)⟩
  | newInd :: rest, oldInd, acc, hle, hnd, hb => by
    have hlt : oldInd < lines.length := by
      simp only [List.length_cons] at hle
      omega
    have hl : lines.get? oldInd = some (lines.get ⟨oldInd, hlt⟩) := List.get?_eq_get hlt
    have hnotmem : newInd ∉ rest := (List.nodup_cons.mp hnd).1
    have hnd' : rest.Nodup := (List.nodup_cons.mp hnd).2
    have hb' : ∀ j ∈ rest, j < (acc.set newInd (some (lines.get ⟨oldInd, hlt⟩))).length := by
      intro j hj
      rw [List.length_set]
      exact hb j (List.mem_cons_of_mem _ hj)
    have hle' : (oldInd + 1) + rest.length ≤ lines.length := by
      simp only [List.length_cons] at hle
      omega
    obtain ⟨res, heq, hlen, hout, hslots⟩ :=
      reorderGo_ok_spec lines rest (oldInd + 1) _ hle' hnd' hb'
    refine ⟨res, ?_, ?_, ?_, ?_⟩
    · simp only [reorderGo, hl]
      exact heq
    · rw [hlen, List.length_set]
    · intro j hj
      have hj1 : j ∉ rest := fun hx => hj (List.mem_cons_of_mem _ hx)
      have hj2 : newInd ≠ j := fun hx => hj (hx ▸ List.mem_cons_self _ _)
      rw [hout j hj1, List.get?_set_ne _ _ hj2]
    · intro i hi
      cases i with
      | zero =>
        have hg0 : (newInd :: rest).get ⟨0, hi⟩ = newInd := rfl
        rw [hg0, hout newInd hnotmem,
          List.get?_set_eq_of_lt _ (hb newInd (List.mem_cons_self _ _))]
        rw [Nat.add_zero, hl]
      | succ i' =>
        have hi' : i' < rest.length := by
          simp only [List.length_cons] at hi
          omega
        have hg : (newInd :: rest).get ⟨i' + 1, hi⟩ = rest.get ⟨i', hi'⟩ := rfl
        rw [hg, hslots i' hi']
        congr 1
        congr 1
        omega

lemma reorderGo_err (lines : List Line2D) :
    ∀ (order : List Nat) (oldInd : Nat) (acc : List (Option Line2D)),
      order ≠ [] → lines.length < oldInd + order.length →
      reorderGo lines order oldInd acc = .error .indexError
  | [], _, _, hne, _ => absurd rfl hne
  | newInd :: rest, oldInd, acc, _, hlong => by
    cases hg : lines.get? oldInd with
    | none => simp only [reorderGo, hg]
    | some l =>
      have hoi : oldInd < lines.length := by
        by_contra hge
        rw [List.get?_eq_none.mpr (by omega)] at hg
        cases hg
      have hrne : rest ≠ [] := by
        intro hx
        subst hx
        simp only [List.length_cons, List.length_nil] at hlong
        omega
      simp only [reorderGo, hg]
      exact reorderGo_err lines rest (oldInd + 1) _ hrne
        (by simp only [List.length_cons] at hlong; omega)

lemma toFinset_eq_of_perm (order : List Nat) (n : Nat)
    (hp : IsPermutationOf order n) :
    order.toFinset = (List.range n).toFinset := by
  obtain ⟨hlen, hnd, hb⟩ := hp
  apply Finset.eq_of_subset_of_card_le
  · intro j hj
    rw [List.mem_toFinset] at hj
    rw [List.mem_toFinset, List.mem_range]
    exact hb j hj
  · rw [List.toFinset_card_of_nodup (List.nodup_range n),
      List.toFinset_card_of_nodup hnd, hlen, List.length_range]

lemma perm_of_toFinset_eq (order : List Nat) (n : Nat)
    (hf : order.toFinset = (List.range n).toFinset) (hlen : order.length ≤ n) :
    IsPermutationOf order n := by
  have hb : ∀ j ∈ order, j < n := by
    intro j hj
    have hm := List.mem_toFinset.mpr hj
    rw [hf, List.mem_toFinset, List.mem_range] at hm
    exact hm
  have hcard : order.toFinset.card = n := by
    rw [hf, List.toFinset_card_of_nodup (List.nodup_range n), List.length_range]
  have hge : n ≤ order.length := by
    have hle := List.toFinset_card_le (l := order)
    omega
  have hlen' : order.length = n := le_antisymm hlen hge
  have hnd : order.Nodup := by
    have hded : order.dedup.length = order.length := by
      have hc := List.card_toFinset order
      omega
    exact List.dedup_eq_self.mp ((List.dedup_sublist order).eq_of_length hded)
  exact ⟨hlen', hnd, hb⟩

lemma reduceOption_get?_all_some (l : List (Option Line2D))
    (h : ∀ x ∈ l, x ≠ none) :
    ∀ j, l.reduceOption.get? j = (l.get? j).bind id := by
  induction l with
  | nil => intro j; simp
  | cons x rest ih =>
    cases x with
    | none => exact absurd rfl (h none (List.mem_cons_self _ _))
    | some a =>
      intro j
      cases j with
      | zero => simp [List.reduceOption_cons_of_some]
      | succ j' =>
        simp only [List.reduceOption_cons_of_some, List.get?_cons_succ]
        exact ih (fun x hx => h x (List.mem_cons_of_mem _ hx)) j'

lemma reduceOption_length_all_some (l : List (Option Line2D))
    (h : ∀ x ∈ l, x ≠ none) :
    l.reduceOption.length = l.length := by
  induction l with
  | nil => simp
  | cons x rest ih =>
    cases x with
    | none => exact absurd rfl (h none (List.mem_cons_self _ _))
    | some a =>
      simp only [List.reduceOption_cons_of_some, List.length_cons]
      rw [ih (fun x hx => h x (List.mem_cons_of_mem _ hx))]

/-- Claim C2 (counterexample): for a 2-series surface, the argument
`(1, 0, 1)` — not a bijection, but covering `{0, 1}` as a set — passes
the source's set-equality assertion and then fails with `IndexError`
(reading `ax.lines[2]`), not with the invalid-argument error the claim
states. -/
theorem reorder_lines_overlong_counterexample :
    reorder_lines ⟨⟨[ln0, ln1], 0⟩, ⟨25, []⟩, []⟩ [1, 0, 1] = .error .indexError ∧
    Err.indexError ≠ Err.invalidArgument := by
  constructor
  · rfl
  · decide

/-- Claim C2 (amended): `reorder_lines` accepts exactly the bijections
of `0..n-1` (acceptance in both directions), and an accepted
permutation moves the series at position `i` to position
`permutation[i]`; an argument whose set of entries differs from
`{0..n-1}` fails with the invalid-argument error, while an over-length
argument that still covers `{0..n-1}` fails with the index error
instead; every failure leaves the series list unchanged (the source
raises before reassigning `ax.lines`). -/
theorem reorder_lines_spec (s : AxesLineSelector)
    (order₁ order₂ order₃ order₄ : List Nat) (s₂ : AxesLineSelector)
    (hperm : IsPermutationOf order₁ s.ax.lines.length)
    (hbad : order₂.toFinset ≠ (List.range s.ax.lines.length).toFinset)
    (hcover : order₃.toFinset = (List.range s.ax.lines.length).toFinset)
    (hlong : s.ax.lines.length < order₃.length)
    (hok : reorder_lines s order₄ = .ok s₂) :
    (∃ s₁, reorder_lines s order₁ = .ok s₁ ∧
      s₁.ax.lines.length = s.ax.lines.length ∧
      ∀ i (hi : i < order₁.length),
        s₁.ax.lines.get? (order₁.get ⟨i, hi⟩) = s.ax.lines.get? i) ∧
    IsPermutationOf order₄ s.ax.lines.length ∧
    reorder_lines s order₂ = .error .invalidArgument ∧
    reorder_lines s order₃ = .error .indexError := by
  refine ⟨?_, ?_, ?_, ?_⟩
  · obtain ⟨hlen₁, hnd₁, hb₁⟩ := hperm
    have hf₁ := toFinset_eq_of_perm order₁ s.ax.lines.length ⟨hlen₁, hnd₁, hb₁⟩
    obtain ⟨res, heq, hrlen, hout, hslots⟩ :=
      reorderGo_ok_spec s.ax.lines order₁ 0 (List.replicate s.ax.lines.length none)
        (by omega) hnd₁
        (by intro j hj; rw [List.length_replicate]; exact hb₁ j hj)
    have hallsome : ∀ x ∈ res, x ≠ none := by
      intro x hx
      obtain ⟨⟨j, hj⟩, hxj⟩ := List.mem_iff_get.mp hx
      have hjn : j < s.ax.lines.length := by
        rw [hrlen, List.length_replicate] at hj
        exact hj
      have hjord : j ∈ order₁ := by
        have hh : j ∈ (List.range s.ax.lines.length).toFinset := by
          rw [List.mem_toFinset, List.mem_range]
          exact hjn
        rw [← hf₁, List.mem_toFinset] at hh
        exact hh
      obtain ⟨⟨i, hi⟩, hio⟩ := List.mem_iff_get.mp hjord
      have hres : res.get? j = some (s.ax.lines.get? (0 + i)) := by
        rw [← hio]
        exact hslots i hi
      have hxeq : res.get? j = some x := by
        rw [List.get?_eq_get hj, hxj]
      rw [hxeq] at hres
      have hi' : i < s.ax.lines.length := by
        rw [← hlen₁]
        exact hi
      have hx2 : x = s.ax.lines.get? (0 + i) := by
        injection hres
      rw [hx2, Nat.zero_add, List.get?_eq_get hi']
      simp
    refine ⟨{ s with ax := redrawAx { s.ax with lines := res.reduceOption } }, ?_, ?_, ?_⟩
    · unfold reorder_lines
      rw [if_pos hf₁]
      simp only [heq]
    · show res.reduceOption.length = _
      rw [reduceOption_length_all_some res hallsome, hrlen, List.length_replicate]
    · intro i hi
      show res.reduceOption.get? _ = _
      rw [reduceOption_get?_all_some res hallsome, hslots i hi]
      simp
  · unfold reorder_lines at hok
    split at hok
    · rename_i hf₄
      cases hmatch : reorderGo s.ax.lines order₄ 0 (List.replicate s.ax.lines.length none) with
      | error e => rw [hmatch] at hok; exact absurd hok (by simp)
      | ok res =>
        have hlen₄ : order₄.length ≤ s.ax.lines.length := by
          by_contra hgt
          push_neg at hgt
          have hne₄ : order₄ ≠ [] := by
            intro hx
            rw [hx] at hgt
            simp at hgt
          rw [reorderGo_err s.ax.lines order₄ 0 _ hne₄ (by omega)] at hmatch
          cases hmatch
        exact perm_of_toFinset_eq order₄ _ hf₄ hlen₄
    · exact absurd hok (by simp)
  · unfold reorder_lines
    rw [if_neg hbad]
  · unfold reorder_lines
    rw [if_pos hcover]
    have herr := reorderGo_err s.ax.lines order₃ 0
      (List.replicate s.ax.lines.length none)
      (by intro hx; rw [hx] at hlong; simp at hlong) (by omega)
    simp only [herr]

/-- Witness for C2 at a concrete 2-series surface: `[1, 0]` is accepted
and swaps the two series, `[0, 1]` is accepted and is a bijection,
`[0, 0]` fails with the invalid-argument error, and `[1, 0, 1]` fails
with the index error. -/
theorem reorder_lines_spec_witness :
    (∃ s₁, reorder_lines ⟨⟨[ln0, ln1], 0⟩, ⟨25, []⟩, []⟩ [1, 0] = .ok s₁ ∧
      s₁.ax.lines.length = 2 ∧
      ∀ i (hi : i < ([1, 0] : List Nat).length),
        s₁.ax.lines.get? (([1, 0] : List Nat).get ⟨i, hi⟩) =
          ([ln0, ln1] : List Line2D).get? i) ∧
    IsPermutationOf [0, 1] 2 ∧
    reorder_lines ⟨⟨[ln0, ln1], 0⟩, ⟨25, []⟩, []⟩ [0, 0] = .error .invalidArgument ∧
    reorder_lines ⟨⟨[ln0, ln1], 0⟩, ⟨25, []⟩, []⟩ [1, 0, 1] = .error .indexError :=
  reorder_lines_spec ⟨⟨[ln0, ln1], 0⟩, ⟨25, []⟩, []⟩ [1, 0] [0, 0] [1, 0, 1] [0, 1]
    ⟨⟨[ln0, ln1], 1⟩, ⟨25, []⟩, []⟩
    ⟨rfl, by decide, by decide⟩ (by decide) (by decide) (by decide) rfl

/-! ### The aliasing-aware attribute-assignment loop -/

lemma replaceLine_self (old new : Line2D) : replaceLine old new old = new := by
  unfold replaceLine
  rw [if_pos rfl]

lemma replaceLine_ne_id (old new l : Line2D) (h : l.id ≠ old.id) :
    replaceLine old new l = l := by
  unfold replaceLine
  rw [if_neg]
  intro he
  exact h (by rw [he])

lemma setattrGo_clipboard (attr : String) :
    ∀ (pairs : List (Line2D × Int)) (s : AxesLineSelector) (front : List Line2D),
      (s.line_clipboard.map Line2D.id).Nodup →
      s.line_clipboard = front ++ pairs.map Prod.fst →
      (setattrGo attr pairs.length pairs s).line_clipboard
        = front ++ pairs.map (fun p => setLineAttr p.1 attr p.2)
  | [], s, front, _, hsplit => by
    simpa [setattrGo] using hsplit
  | (ln, v) :: rest, s, front, hids, hsplit => by
    have hids' := hids
    rw [hsplit] at hids'
    simp only [List.map_append, List.map_cons] at hids'
    have hdisj := (List.nodup_append.mp hids').2.2
    have hcons := (List.nodup_append.mp hids').2.1
    have hnotmem : ln.id ∉ (rest.map Prod.fst).map Line2D.id :=
      (List.nodup_cons.mp hcons).1
    have hfront : ∀ f ∈ front, f.id ≠ ln.id := by
      intro f hf he
      exact hdisj (List.mem_map_of_mem Line2D.id hf)
        (he ▸ List.mem_cons_self _ _)
    have hrest : ∀ r ∈ rest.map Prod.fst, r.id ≠ ln.id := by
      intro r hr he
      exact hnotmem (he ▸ List.mem_map_of_mem Line2D.id hr)
    have hmapfront : front.map (replaceLine ln (setLineAttr ln attr v)) = front := by
      rw [List.map_congr_left
        (fun f hf => replaceLine_ne_id ln (setLineAttr ln attr v) f (hfront f hf))]
      exact List.map_id front
    have hmapfst : (rest.map Prod.fst).map (replaceLine ln (setLineAttr ln attr v))
        = rest.map Prod.fst := by
      rw [List.map_congr_left
        (fun r hr => replaceLine_ne_id ln (setLineAttr ln attr v) r (hrest r hr))]
      exact List.map_id _
    have hpairsmap : rest.map (fun p => (replaceLine ln (setLineAttr ln attr v) p.1, p.2))
        = rest := by
      have hmc := List.map_congr_left
        (f := fun p : Line2D × Int => (replaceLine ln (setLineAttr ln attr v) p.1, p.2))
        (g := id)
        (fun p hp => by
          have hp1 : replaceLine ln (setLineAttr ln attr v) p.1 = p.1 :=
            replaceLine_ne_id _ _ _ (hrest p.1 (List.mem_map_of_mem Prod.fst hp))
          simp [hp1])
      rw [hmc, List.map_id]
    have hclip' : (setLineEverywhere s ln (setLineAttr ln attr v)).line_clipboard
        = (front ++ [setLineAttr ln attr v]) ++ rest.map Prod.fst := by
      show s.line_clipboard.map (replaceLine ln (setLineAttr ln attr v)) = _
      rw [hsplit]
      simp only [List.map_append, List.map_cons, hmapfront, hmapfst, replaceLine_self]
      simp
    have hids'' : ((setLineEverywhere s ln (setLineAttr ln attr v)).line_clipboard.map
        Line2D.id).Nodup := by
      rw [hclip']
      have hsame : ((front ++ [setLineAttr ln attr v]) ++ rest.map Prod.fst).map Line2D.id
          = front.map Line2D.id ++ ln.id :: (rest.map Prod.fst).map Line2D.id := by
        simp [setLineAttr]
      rw [hsame]
      exact hids'
    have hrec := setattrGo_clipboard attr rest
      (setLineEverywhere s ln (setLineAttr ln attr v))
      (front ++ [setLineAttr ln attr v]) hids''
      (by rw [hclip'])
    have hfuel : ((ln, v) :: rest).length = rest.length + 1 := rfl
    rw [hfuel]
    show (setattrGo attr rest.length
      (rest.map (fun p => (replaceLine ln (setLineAttr ln attr v) p.1, p.2)))
      (setLineEverywhere s ln (setLineAttr ln attr v))).line_clipboard = _
    rw [hpairsmap, hrec]
    simp

lemma zip_replicate_map (g : Line2D → Int → Line2D) :
    ∀ (l : List Line2D) (v : Int),
      (l.zip (List.replicate l.length v)).map (fun p => g p.1 p.2)
        = l.map (fun ln => g ln v)
  | [], _ => rfl
  | a :: rest, v => by
    simp only [List.length_cons, List.replicate_succ, List.zip_cons_cons, List.map_cons]
    rw [zip_replicate_map g rest v]

lemma zip_map_eq_zipWith (g : Line2D → Int → Line2D) :
    ∀ (l : List Line2D) (vs : List Int),
      (l.zip vs).map (fun p => g p.1 p.2) = List.zipWith g l vs
  | [], _ => by simp
  | _ :: _, [] => by simp
  | a :: rest, w :: ws => by
    simp only [List.zip_cons_cons, List.map_cons, List.zipWith_cons_cons]
    rw [zip_map_eq_zipWith g rest ws]

lemma zip_enumFrom_map (attr : String) (f : Line2D → Nat → Int) :
    ∀ (l : List Line2D) (n : Nat),
      (l.zip ((l.enumFrom n).map (fun p => f p.2 p.1))).map
          (fun q => setLineAttr q.1 attr q.2)
        = (l.enumFrom n).map (fun p => setLineAttr p.2 attr (f p.2 p.1))
  | [], _ => rfl
  | a :: rest, n => by
    simp only [List.enumFrom, List.map_cons, List.zip_cons_cons]
    rw [zip_enumFrom_map attr f rest (n + 1)]

/-- Claim C4: for an allow-listed attribute and a clipboard of size `k`
(of distinct line objects), `setattr_selection` broadcasts a single
value to all `k` entries; a tuple value whose length differs from `k`
fails with the invalid-argument error, while a tuple of length `k` is
assigned positionally; and a callable is applied as `fn(line, i)` to
produce each entry's assigned value. -/
theorem setattr_selection_spec (s : AxesLineSelector) (attr : String) (v : Int)
    (vs₁ vs₂ : List Int) (f : Line2D → Nat → Int)
    (hattr : attr ∈ LINE_PROPERTIES)
    (hids : (s.line_clipboard.map Line2D.id).Nodup)
    (hbadlen : vs₁.length ≠ s.line_clipboard.length)
    (hgoodlen : vs₂.length = s.line_clipboard.length) :
    setattr_selection s attr (.tup vs₁) = .error .invalidArgument ∧
    (∃ s₁, setattr_selection s attr (.single v) = .ok s₁ ∧
      s₁.line_clipboard = s.line_clipboard.map (fun ln => setLineAttr ln attr v)) ∧
    (∃ s₂, setattr_selection s attr (.tup vs₂) = .ok s₂ ∧
      s₂.line_clipboard = List.zipWith (fun ln w => setLineAttr ln attr w)
        s.line_clipboard vs₂) ∧
    (∃ s₃, setattr_selection s attr (.fn f) = .ok s₃ ∧
      s₃.line_clipboard = s.line_clipboard.enum.map
        (fun p => setLineAttr p.2 attr (f p.2 p.1))) := by
  refine ⟨?_, ?_, ?_, ?_⟩
  · simp only [setattr_selection]
    rw [if_pos hattr, if_neg hbadlen]
  · refine ⟨setattrRun attr
      (s.line_clipboard.zip (List.replicate s.line_clipboard.length v)) s, ?_, ?_⟩
    · simp only [setattr_selection]
      rw [if_pos hattr]
    · unfold setattrRun
      show (setattrGo attr _ _ s).line_clipboard = _
      rw [setattrGo_clipboard attr _ s [] hids
        (by rw [List.map_fst_zip _ _ (by rw [List.length_replicate])]; rfl)]
      rw [List.nil_append]
      exact zip_replicate_map (fun ln w => setLineAttr ln attr w) s.line_clipboard v
  · refine ⟨setattrRun attr (s.line_clipboard.zip vs₂) s, ?_, ?_⟩
    · simp only [setattr_selection]
      rw [if_pos hattr, if_pos hgoodlen]
    · unfold setattrRun
      show (setattrGo attr _ _ s).line_clipboard = _
      rw [setattrGo_clipboard attr _ s [] hids
        (by rw [List.map_fst_zip _ _ (by rw [hgoodlen])]; rfl)]
      rw [List.nil_append]
      exact zip_map_eq_zipWith (fun ln w => setLineAttr ln attr w) s.line_clipboard vs₂
  · refine ⟨setattrRun attr
      (s.line_clipboard.zip (s.line_clipboard.enum.map (fun p => f p.2 p.1))) s, ?_, ?_⟩
    · simp only [setattr_selection]
      rw [if_pos hattr]
    · unfold setattrRun
      show (setattrGo attr _ _ s).line_clipboard = _
      rw [setattrGo_clipboard attr _ s [] hids
        (by rw [List.map_fst_zip _ _ (by simp [List.enum])]; rfl)]
      rw [List.nil_append]
      exact zip_enumFrom_map attr f s.line_clipboard 0

/-- Witness for C4 on a clipboard of three distinct lines: broadcast
with `2`, positional tuple `(1, 2, 3)`, length-mismatched tuple
`(1, 2)`, and per-item function `fn(line, i) = i`. -/
theorem setattr_selection_spec_witness :
    setattr_selection ⟨⟨[ln0, ln1, ln2], 0⟩, ⟨25, []⟩, [ln0, ln1, ln2]⟩ "linewidth"
        (.tup [1, 2]) = .error .invalidArgument ∧
    (∃ s₁, setattr_selection ⟨⟨[ln0, ln1, ln2], 0⟩, ⟨25, []⟩, [ln0, ln1, ln2]⟩ "linewidth"
        (.single 2) = .ok s₁ ∧
      s₁.line_clipboard = ([ln0, ln1, ln2] : List Line2D).map
        (fun ln => setLineAttr ln "linewidth" 2)) ∧
    (∃ s₂, setattr_selection ⟨⟨[ln0, ln1, ln2], 0⟩, ⟨25, []⟩, [ln0, ln1, ln2]⟩ "linewidth"
        (.tup [1, 2, 3]) = .ok s₂ ∧
      s₂.line_clipboard = List.zipWith (fun ln w => setLineAttr ln "linewidth" w)
        [ln0, ln1, ln2] [1, 2, 3]) ∧
    (∃ s₃, setattr_selection ⟨⟨[ln0, ln1, ln2], 0⟩, ⟨25, []⟩, [ln0, ln1, ln2]⟩ "linewidth"
        (.fn (fun _ i => (i : Int))) = .ok s₃ ∧
      s₃.line_clipboard = ([ln0, ln1, ln2] : List Line2D).enum.map
        (fun p => setLineAttr p.2 "linewidth" ((fun _ i => (i : Int)) p.2 p.1))) :=
  setattr_selection_spec ⟨⟨[ln0, ln1, ln2], 0⟩, ⟨25, []⟩, [ln0, ln1, ln2]⟩ "linewidth"
    2 [1, 2] [1, 2, 3] (fun _ i => (i : Int))
    (by decide) (by decide) (by decide) (by decide)

/-! ### Attribute copying during paste -/

lemma getLineAttr_set_same (l : Line2D) (a : String) (v : Int) :
    getLineAttr (setLineAttr l a v) a = v := by
  simp [getLineAttr, setLineAttr, List.lookup]

lemma getLineAttr_set_other (l : Line2D) (a b : String) (v : Int) (h : a ≠ b) :
    getLineAttr (setLineAttr l b v) a = getLineAttr l a := by
  simp [getLineAttr, setLineAttr, List.lookup, beq_eq_false_iff_ne.mpr h]

lemma foldl_setLineAttr_xdata (src : Line2D) :
    ∀ (props : List String) (l : Line2D),
      (props.foldl (fun l2 a => setLineAttr l2 a (getLineAttr src a)) l).xdata = l.xdata
  | [], _ => rfl
  | p :: rest, l => by
    rw [List.foldl_cons, foldl_setLineAttr_xdata src rest _]
    rfl

lemma foldl_setLineAttr_ydata (src : Line2D) :
    ∀ (props : List String) (l : Line2D),
      (props.foldl (fun l2 a => setLineAttr l2 a (getLineAttr src a)) l).ydata = l.ydata
  | [], _ => rfl
  | p :: rest, l => by
    rw [List.foldl_cons, foldl_setLineAttr_ydata src rest _]
    rfl

lemma getLineAttr_fold_notmem (src : Line2D) :
    ∀ (props : List String) (l : Line2D) (a : String), a ∉ props →
      getLineAttr (props.foldl (fun l2 p => setLineAttr l2 p (getLineAttr src p)) l) a
        = getLineAttr l a
  | [], _, _, _ => rfl
  | p :: rest, l, a, hnot => by
    rw [List.foldl_cons,
      getLineAttr_fold_notmem src rest _ a (fun hx => hnot (List.mem_cons_of_mem _ hx))]
    exact getLineAttr_set_other l a p _ (fun he => hnot (he ▸ List.mem_cons_self _ _))

lemma getLineAttr_fold_mem (src : Line2D) :
    ∀ (props : List String) (l : Line2D) (a : String), props.Nodup → a ∈ props →
      getLineAttr (props.foldl (fun l2 p => setLineAttr l2 p (getLineAttr src p)) l) a
        = getLineAttr src a
  | [], _, _, _, hmem => absurd hmem (by simp)
  | p :: rest, l, a, hnd, hmem => by
    rw [List.foldl_cons]
    by_cases ha : a = p
    · subst ha
      rw [getLineAttr_fold_notmem src rest _ a ((List.nodup_cons.mp hnd).1)]
      exact getLineAttr_set_same l a _
    · have hmem' : a ∈ rest := by
        cases List.mem_cons.mp hmem with
        | inl hx => exact absurd hx ha
        | inr hx => exact hx
      exact getLineAttr_fold_mem src rest _ a (List.nodup_cons.mp hnd).2 hmem'

lemma pastedLine_xdata (idv : Nat) (ln : Line2D) :
    (pastedLine idv ln).xdata = ln.xdata :=
  foldl_setLineAttr_xdata ln LINE_PROPERTIES _

lemma pastedLine_ydata (idv : Nat) (ln : Line2D) :
    (pastedLine idv ln).ydata = ln.ydata :=
  foldl_setLineAttr_ydata ln LINE_PROPERTIES _

lemma pastedLine_attr (idv : Nat) (ln : Line2D) (a : String)
    (ha : a ∈ LINE_PROPERTIES) :
    getLineAttr (pastedLine idv ln) a = getLineAttr ln a :=
  getLineAttr_fold_mem ln LINE_PROPERTIES _ a (by decide) ha

lemma pasteGo_fst_length :
    ∀ (clip : List Line2D) (k : Nat) (ax2 : AxesState),
      (pasteGo k clip ax2).1.length = clip.length
  | [], _, _ => rfl
  | ln :: rest, k, ax2 => by
    simp only [pasteGo, List.length_cons]
    rw [pasteGo_fst_length rest (k + 1) _]

lemma pasteGo_fst_get? :
    ∀ (clip : List Line2D) (k : Nat) (ax2 : AxesState) (i : Nat),
      (pasteGo k clip ax2).1.get? i = (clip.get? i).map (pastedLine (k + i))
  | [], _, _, i => by simp [pasteGo]
  | ln :: rest, k, ax2, 0 => by simp [pasteGo]
  | ln :: rest, k, ax2, i + 1 => by
    simp only [pasteGo, List.get?_cons_succ]
    rw [pasteGo_fst_get? rest (k + 1) _ i,
      show k + 1 + i = k + (i + 1) by omega]

lemma pasteGo_lines :
    ∀ (clip : List Line2D) (k : Nat) (ax2 : AxesState),
      (pasteGo k clip ax2).2.lines = ax2.lines ++ (pasteGo k clip ax2).1
  | [], _, _ => by simp [pasteGo]
  | ln :: rest, k, ax2 => by
    simp only [pasteGo]
    rw [pasteGo_lines rest (k + 1) _]
    simp

/-- Claim C9: `paste_selection` returns a brand-new coordinator bound
to the target surface whose clipboard holds exactly one new series per
source-clipboard entry, in source order; the new series are appended to
the target's series list; and each pasted series carries the same
sample data and the same value for every allow-listed attribute as its
source series.  (The source coordinator is not mutated: the embedding
passes it by value and it does not appear in the result.) -/
theorem paste_selection_spec (s : AxesLineSelector) (ax2 : AxesState) (nextId : Nat)
    (i : Nat) (lnS lnN : Line2D) (a : String)
    (hS : s.line_clipboard.get? i = some lnS)
    (hN : (paste_selection s ax2 nextId).line_clipboard.get? i = some lnN)
    (ha : a ∈ LINE_PROPERTIES) :
    (paste_selection s ax2 nextId).line_clipboard.length = s.line_clipboard.length ∧
    (paste_selection s ax2 nextId).ax.lines
      = ax2.lines ++ (paste_selection s ax2 nextId).line_clipboard ∧
    lnN.xdata = lnS.xdata ∧ lnN.ydata = lnS.ydata ∧
    getLineAttr lnN a = getLineAttr lnS a := by
  have hclip : (paste_selection s ax2 nextId).line_clipboard
      = (pasteGo nextId s.line_clipboard ax2).1 := rfl
  have haxl : (paste_selection s ax2 nextId).ax.lines
      = (pasteGo nextId s.line_clipboard ax2).2.lines := rfl
  rw [hclip] at hN
  rw [pasteGo_fst_get? s.line_clipboard nextId ax2 i, hS] at hN
  simp only [Option.map_some'] at hN
  have hLn : lnN = pastedLine (nextId + i) lnS := by
    injection hN with hx
    exact hx.symm
  subst hLn
  refine ⟨?_, ?_, ?_, ?_, ?_⟩
  · rw [hclip]
    exact pasteGo_fst_length s.line_clipboard nextId ax2
  · rw [haxl, hclip]
    exact pasteGo_lines s.line_clipboard nextId ax2
  · exact pastedLine_xdata _ lnS
  · exact pastedLine_ydata _ lnS
  · exact pastedLine_attr _ lnS a ha

/-- Witness for C9: paste a one-entry clipboard (a line with a set
color attribute) onto a target surface that already has one line. -/
theorem paste_selection_spec_witness :
    (paste_selection ⟨⟨[], 0⟩, ⟨25, []⟩, [setLineAttr ln0 "color" 5]⟩ ⟨[ln1], 0⟩
        7).line_clipboard.length = 1 ∧
    (paste_selection ⟨⟨[], 0⟩, ⟨25, []⟩, [setLineAttr ln0 "color" 5]⟩ ⟨[ln1], 0⟩ 7).ax.lines
      = [ln1] ++ (paste_selection ⟨⟨[], 0⟩, ⟨25, []⟩, [setLineAttr ln0 "color" 5]⟩ ⟨[ln1], 0⟩
          7).line_clipboard ∧
    (pastedLine 7 (setLineAttr ln0 "color" 5)).xdata = (setLineAttr ln0 "color" 5).xdata ∧
    (pastedLine 7 (setLineAttr ln0 "color" 5)).ydata = (setLineAttr ln0 "color" 5).ydata ∧
    getLineAttr (pastedLine 7 (setLineAttr ln0 "color" 5)) "color"
      = getLineAttr (setLineAttr ln0 "color" 5) "color" :=
  paste_selection_spec ⟨⟨[], 0⟩, ⟨25, []⟩, [setLineAttr ln0 "color" 5]⟩ ⟨[ln1], 0⟩ 7 0
    (setLineAttr ln0 "color" 5) (pastedLine 7 (setLineAttr ln0 "color" 5)) "color"
    rfl rfl (by decide)
